import Mathlib

/-!
Shallow embedding of the maze-solver core (Maze grid, generator, solvers,
time mutator) and verification of the frozen specification claims.

Coordinates: the TypeScript `Position` has an optional `z` that every
consumer defaults to `0` (`z = 0` destructuring, `z || 0`), so positions are
embedded with a mandatory integer `z` and 2-D positions carry `z = 0`.
-/

namespace MazeSim

structure Pos where
  x : Int
  y : Int
  z : Int
deriving DecidableEq, Repr

inductive Dir where
  | north
  | south
  | east
  | west
  | up
  | down
deriving DecidableEq, Repr

/-- The six wall flags of a cell.  `up`/`down` are `Option Bool` because in
2-D mode the TypeScript object simply lacks those properties (`undefined`). -/
structure Walls where
  north : Bool
  south : Bool
  east : Bool
  west : Bool
  up : Option Bool
  down : Option Bool
deriving DecidableEq, Repr

structure Cell where
  pos : Pos
  walls : Walls
  visited : Bool
  links : List Pos
deriving DecidableEq, Repr

/-- The maze grid (`Maze` class).  `cells` is total; out-of-bounds values are
never observed because every access goes through the bounds check of
`getCell`, mirroring the dense `cells[z][y][x]` array. -/
structure Maze where
  is3d : Bool
  width : Int
  height : Int
  depth : Int
  cells : Pos → Cell

/-- Reading one direction out of the walls object (`cell.walls[direction]`). -/
def wallGet (w : Walls) : Dir → Option Bool
  | .north => some w.north
  | .south => some w.south
  | .east => some w.east
  | .west => some w.west
  | .up => w.up
  | .down => w.down

/-- Writing one direction of the walls object, used only under the source's
`!== undefined` guard, so `up`/`down` stay defined exactly when they were. -/
def wallSet (w : Walls) (b : Bool) : Dir → Walls
  | .north => { w with north := b }
  | .south => { w with south := b }
  | .east => { w with east := b }
  | .west => { w with west := b }
  | .up => { w with up := some b }
  | .down => { w with down := some b }

/-- `Maze.getOppositeDirection`. -/
def opp : Dir → Dir
  | .north => .south
  | .south => .north
  | .east => .west
  | .west => .east
  | .up => .down
  | .down => .up

/-- Cell state of a freshly constructed grid (`Maze.initializeCells`):
all lateral walls present; in 3-D, `up` is a wall except at the top layer and
`down` except at the bottom layer; in 2-D, `up`/`down` are absent. -/
def freshCell (is3d : Bool) (depth : Int) (p : Pos) : Cell :=
  { pos := p
    walls :=
      { north := true, south := true, east := true, west := true
        up := if is3d then some (decide (p.z < depth - 1)) else none
        down := if is3d then some (decide (p.z > 0)) else none }
    visited := false
    links := [] }

/-- `new Maze(config)`: depth collapses to 1 in 2-D mode. -/
def Maze.fresh (is3d : Bool) (w h d : Int) : Maze :=
  let dep := if is3d then d else 1
  { is3d := is3d, width := w, height := h, depth := dep
    cells := freshCell is3d dep }

def Maze.inB (m : Maze) (p : Pos) : Bool :=
  decide (0 ≤ p.x) && decide (p.x < m.width) &&
  decide (0 ≤ p.y) && decide (p.y < m.height) &&
  decide (0 ≤ p.z) && decide (p.z < m.depth)

/-- `Maze.getCell`: absence (`null`) for out-of-bounds coordinates. -/
def Maze.getCell (m : Maze) (p : Pos) : Option Cell :=
  if m.inB p then some (m.cells p) else none

/-- Pointwise replacement of one cell (the TS code mutates the cell object). -/
def Maze.updCell (m : Maze) (p : Pos) (f : Cell → Cell) : Maze :=
  { m with cells := fun q => if q = p then f (m.cells q) else m.cells q }

/-- `Maze.getAdjacentPosition`; `up`/`down` resolve only in 3-D mode. -/
def Maze.adjPos (m : Maze) (p : Pos) : Dir → Option Pos
  | .north => some ⟨p.x, p.y - 1, p.z⟩
  | .south => some ⟨p.x, p.y + 1, p.z⟩
  | .east => some ⟨p.x + 1, p.y, p.z⟩
  | .west => some ⟨p.x - 1, p.y, p.z⟩
  | .up => if m.is3d then some ⟨p.x, p.y, p.z + 1⟩ else none
  | .down => if m.is3d then some ⟨p.x, p.y, p.z - 1⟩ else none

/-- `Maze.setWall`: sets the local flag (if that direction exists on the
cell) and mirrors the change onto the adjacent cell's opposite flag. -/
def Maze.setWall (m : Maze) (p : Pos) (d : Dir) (b : Bool) : Maze :=
  match m.getCell p with
  | none => m
  | some c =>
    if (wallGet c.walls d).isSome then
      let m1 := m.updCell p (fun c0 => { c0 with walls := wallSet c0.walls b d })
      match m.adjPos p d with
      | none => m1
      | some q =>
        match m1.getCell q with
        | none => m1
        | some c2 =>
          if (wallGet c2.walls (opp d)).isSome then
            m1.updCell q (fun c0 => { c0 with walls := wallSet c0.walls b (opp d) })
          else m1
    else m

/-- `Maze.hasWall`: `cell ? (cell.walls[direction] ?? false) : true`. -/
def Maze.hasWall (m : Maze) (p : Pos) (d : Dir) : Bool :=
  match m.getCell p with
  | some c => (wallGet c.walls d).getD false
  | none => true

/-- `Maze.getNeighbors`: geometrically adjacent in-bounds cells (laterals,
plus vertical neighbors in 3-D). -/
def Maze.getNeighbors (m : Maze) (p : Pos) : List Pos :=
  let dirs : List Dir :=
    [.north, .south, .east, .west] ++ (if m.is3d then [.up, .down] else [])
  dirs.filterMap (fun d =>
    match m.adjPos p d with
    | some q => if (m.getCell q).isSome then some q else none
    | none => none)

def Maze.getUnvisitedNeighbors (m : Maze) (p : Pos) : List Pos :=
  (m.getNeighbors p).filter (fun q =>
    match m.getCell q with
    | some c => !c.visited
    | none => false)

def Maze.markVisited (m : Maze) (p : Pos) (b : Bool) : Maze :=
  match m.getCell p with
  | some _ => m.updCell p (fun c => { c with visited := b })
  | none => m

def Maze.isVisited (m : Maze) (p : Pos) : Bool :=
  match m.getCell p with
  | some c => c.visited
  | none => false

/-- `Maze.addLink`: if both endpoints resolve, insert each into the other's
link list unless already present (`positionsEqual` membership). -/
def Maze.addLink (m : Maze) (a b : Pos) : Maze :=
  if (m.getCell a).isSome && (m.getCell b).isSome then
    let m1 :=
      if (m.cells a).links.any (· == b) then m
      else m.updCell a (fun c => { c with links := c.links ++ [b] })
    if (m1.cells b).links.any (· == a) then m1
    else m1.updCell b (fun c => { c with links := c.links ++ [a] })
  else m

/-- `Maze.canMove`.  Faithful to the source, including the unreachable
`dxa = -1` style branches (the source takes `Math.abs` first, so the
negative cases are dead code) and the link check happening only for
non-adjacent pairs. -/
def Maze.canMove (m : Maze) (a b : Pos) : Bool :=
  if ((a.x - b.x).natAbs : Int) + (a.y - b.y).natAbs + (a.z - b.z).natAbs ≠ 1 then
    match m.getCell a with
    | some c => c.links.any (· == b)
    | none => false
  else if ((a.x - b.x).natAbs : Int) = 1 then !m.hasWall a .east
  else if ((a.x - b.x).natAbs : Int) = -1 then !m.hasWall a .west
  else if ((a.y - b.y).natAbs : Int) = 1 then !m.hasWall a .south
  else if ((a.y - b.y).natAbs : Int) = -1 then !m.hasWall a .north
  else if ((a.z - b.z).natAbs : Int) = 1 then !m.hasWall a .up
  else if ((a.z - b.z).natAbs : Int) = -1 then !m.hasWall a .down
  else false

/-! ## Generator (`MazeGenerator`) -/

/-- `MazeGenerator.removeWallBetween`: signed coordinate differences select
which wall of `p1` to clear (mirrored by `setWall`). -/
def removeWallBetween (m : Maze) (p1 p2 : Pos) : Maze :=
  let dx := p2.x - p1.x
  let dy := p2.y - p1.y
  let dz := p2.z - p1.z
  if dx = 1 then m.setWall p1 .east false
  else if dx = -1 then m.setWall p1 .west false
  else if dy = 1 then m.setWall p1 .south false
  else if dy = -1 then m.setWall p1 .north false
  else if dz = 1 && m.is3d then m.setWall p1 .up false
  else if dz = -1 && m.is3d then m.setWall p1 .down false
  else m

/-- One execution of the `generateMaze2D` stack loop.  The stream of
`Math.floor(Math.random() * neighbors.length)` draws is passed explicitly as
`chs` (one index consumed per carving step); the stack top is the list head. -/
def carveLoop : Nat → List Nat → List Pos → Maze → Maze
  | 0, _, _, m => m
  | _ + 1, _, [], m => m
  | n + 1, chs, cur :: rest, m =>
    let ns := m.getUnvisitedNeighbors cur
    match ns with
    | [] => carveLoop n chs rest m
    | _ =>
      let i := chs.headD 0
      let chosen := ns.getD (i % ns.length) cur
      let m1 := removeWallBetween m cur chosen
      let m2 := m1.markVisited chosen true
      carveLoop n chs.tail (chosen :: cur :: rest) m2

/-- `MazeGenerator.generateMaze2D` with an explicit random-index stream. -/
def generateMaze2D (m : Maze) (chs : List Nat) (fuel : Nat) : Maze :=
  let s : Pos := ⟨0, 0, 0⟩
  carveLoop fuel chs [s] (m.markVisited s true)

/-- `MazeGenerator.ensureOpenings`: clears the outward boundary walls at the
start and goal corners (and `down`/`up` in 3-D). -/
def ensureOpenings (m : Maze) : Maze :=
  let start : Pos := ⟨0, 0, 0⟩
  let goal : Pos := ⟨m.width - 1, m.height - 1, if m.is3d then m.depth - 1 else 0⟩
  let m1 := if start.y = 0 then m.setWall start .north false else m
  let m2 := if start.x = 0 then m1.setWall start .west false else m1
  let m3 := if goal.y = m.height - 1 then m2.setWall goal .south false else m2
  let m4 := if goal.x = m.width - 1 then m3.setWall goal .east false else m3
  if m.is3d then
    let m5 := if start.z = 0 then m4.setWall start .down false else m4
    if goal.z = m.depth - 1 then m5.setWall goal .up false else m5
  else m4

/-- The spiral cell order built by `generateLabyrinth2D`: run of `width`
steps, right turns, run length decremented every second turn, coordinates
clamped back into bounds after each move. -/
def labyrinthStep (w h : Int) :
    Nat → (Int × Int) → (Int × Int) → Int → Int → Int → List Pos
  | 0, _, _, _, _, _ => []
  | n + 1, (x, y), (dx, dy), stepsInDirection, stepsTaken, directionChanges =>
    let here : Pos := ⟨x, y, 0⟩
    let x1 := x + dx
    let y1 := y + dy
    let st1 := stepsTaken + 1
    if st1 ≥ stepsInDirection then
      let dc1 := directionChanges + 1
      let d1 : Int × Int :=
        if dx = 1 then (0, 1)
        else if dy = 1 then (-1, 0)
        else if dx = -1 then (0, -1)
        else if dy = -1 then (1, 0)
        else (dx, dy)
      let sid1 := if dc1 % 2 = 0 then stepsInDirection - 1 else stepsInDirection
      let x2 := max 0 (min x1 (w - 1))
      let y2 := max 0 (min y1 (h - 1))
      here :: labyrinthStep w h n (x2, y2) d1 sid1 0 dc1
    else
      let x2 := max 0 (min x1 (w - 1))
      let y2 := max 0 (min y1 (h - 1))
      here :: labyrinthStep w h n (x2, y2) (dx, dy) stepsInDirection st1 directionChanges

/-- The full spiral path of `generateLabyrinth2D` for a `w`×`h` layer:
`totalCells` iterations starting at `(0,0)` heading east with an initial run
length of `w`. -/
def labyrinthPath (w h : Int) : List Pos :=
  labyrinthStep w h (w * h).toNat (0, 0) (1, 0) w 0 0

/-! ## canMove-restricted breadth-first search

The spec's "generation connectivity" property is phrased as a BFS over the
grid whose moves are exactly those `canMove` allows; this is the measuring
device of the claim, not code of the repository. -/

def bfsLoop (m : Maze) : Nat → List Pos → List Pos → List Pos
  | 0, _, vis => vis
  | _ + 1, [], vis => vis
  | n + 1, q :: qs, vis =>
    let ns := (m.getNeighbors q).filter (fun r => m.canMove q r && !vis.any (· == r))
    bfsLoop m n (qs ++ ns) (vis ++ ns)

/-- All cells reachable from `s` taking only `canMove`-allowed steps between
in-bounds neighbors. -/
def bfsReach (m : Maze) (s : Pos) (fuel : Nat) : List Pos :=
  bfsLoop m fuel [s] [s]

/-- Number of opened interior walls: east/south openings whose facing
neighbor is in bounds (each carved passage is counted once). -/
def openPassages (m : Maze) : Nat :=
  ((List.range m.width.toNat).map (fun x =>
    ((List.range m.height.toNat).map (fun y =>
      let p : Pos := ⟨x, y, 0⟩
      (if !m.hasWall p .east && m.inB ⟨p.x + 1, p.y, 0⟩ then 1 else 0) +
      (if !m.hasWall p .south && m.inB ⟨p.x, p.y + 1, 0⟩ then 1 else 0))).sum)).sum

/-! ## A* solver (`AStarSolver`) -/

/-- `AStarSolver.heuristic`: Manhattan distance summing all three axes
(`dx + dy + dz`, each an absolute difference, with `z || 0` defaulting). -/
def heuristic (p g : Pos) : Int :=
  (p.x - g.x).natAbs + (p.y - g.y).natAbs + (p.z - g.z).natAbs

/-- Search node of `AStarSolver` (`parent` is the reconstruction chain). -/
inductive ANode where
  | mk : Pos → Int → Int → Int → Option ANode → ANode

def ANode.pos : ANode → Pos
  | .mk p _ _ _ _ => p

def ANode.gCost : ANode → Int
  | .mk _ g _ _ _ => g

def ANode.fCost : ANode → Int
  | .mk _ _ _ f _ => f

/-- Parent-pointer walk of `reconstructPath`/`updateCurrentPath`: the chain
from the root to this node (built with `unshift`). -/
def ANode.chain : ANode → List Pos
  | .mk p _ _ _ none => [p]
  | .mk p _ _ _ (some par) => par.chain ++ [p]

structure AState where
  openSet : List ANode
  closed : List Pos
  currentPath : List Pos
  isComplete : Bool

/-- Index of the first open node with strictly least f-cost
(the source's linear scan with `<`, starting from index 0). -/
def minFIdx : List ANode → Nat
  | [] => 0
  | x :: xs =>
    ((xs.enum.map (fun e => (e.2, e.1 + 1))).foldl
      (fun best cur => if cur.1.fCost < best.1.fCost then cur else best)
      (x, 0)).2

/-- Splice the `i`-th element out of a list, returning it and the rest. -/
def spliceAt (l : List ANode) (i : Nat) : Option ANode × List ANode :=
  (l.get? i, l.take i ++ l.drop (i + 1))

/-- One `AStarSolver.step`: pop the lowest-f node, finish if it is the goal,
otherwise close it and relax its `getNeighbors`/`canMove` successors. -/
def astarStep (m : Maze) (goal : Pos) (st : AState) : AState :=
  match st.openSet with
  | [] => st
  | _ :: _ =>
    match spliceAt st.openSet (minFIdx st.openSet) with
    | (none, _) => st
    | (some cur, rest) =>
      if cur.pos = goal then
        { st with openSet := rest, currentPath := cur.chain, isComplete := true }
      else
        let closed1 := st.closed ++ [cur.pos]
        let open1 := (m.getNeighbors cur.pos).foldl
          (fun os nb =>
            if closed1.any (· == nb) then os
            else if !m.canMove cur.pos nb then os
            else
              let g1 := cur.gCost + 1
              let h1 := heuristic nb goal
              let f1 := g1 + h1
              match os.find? (fun nd => nd.pos == nb) with
              | none => os ++ [.mk nb g1 h1 f1 (some cur)]
              | some ex =>
                if g1 < ex.gCost then
                  os.map (fun nd =>
                    if nd.pos == nb then
                      match nd with
                      | .mk p _ h _ _ => .mk p g1 h f1 (some cur)
                    else nd)
                else os)
          rest
        { openSet := open1, closed := closed1
          currentPath := cur.chain, isComplete := false }

def astarLoop (m : Maze) (goal : Pos) : Nat → AState → AState
  | 0, st => st
  | n + 1, st =>
    if st.openSet.isEmpty || st.isComplete then st
    else astarLoop m goal n (astarStep m goal st)

/-- The path/solved projection of a `Solution`. -/
structure SolRes where
  path : List Pos
  solved : Bool
deriving DecidableEq, Repr

/-- `AStarSolver.solve`: initialize with the start node, loop `step()` up to
the 10000-step cap, and package `currentPath`/`isComplete`. -/
def astarSolve (m : Maze) (s g : Pos) : SolRes :=
  let h0 := heuristic s g
  let st0 : AState :=
    { openSet := [.mk s 0 h0 h0 none], closed := [], currentPath := [s]
      isComplete := false }
  let st := astarLoop m g 10000 st0
  { path := st.currentPath, solved := st.isComplete }

/-! ## Bidirectional solver (`BidirectionalSearchSolver`) -/

/-- Node record of the bidirectional search; keys are `(x, y)` pairs
(`positionToKey` ignores `z`). -/
structure BNode where
  prev : Option Pos
  visited : Bool
deriving DecidableEq, Repr

def keyOf (p : Pos) : Int × Int := (p.x, p.y)

def bLookup (nodes : List ((Int × Int) × BNode)) (k : Int × Int) : Option BNode :=
  (nodes.find? (fun e => e.1 == k)).map (·.2)

def bSet (nodes : List ((Int × Int) × BNode)) (k : Int × Int) (v : BNode) :
    List ((Int × Int) × BNode) :=
  if nodes.any (fun e => e.1 == k) then
    nodes.map (fun e => if e.1 == k then (e.1, v) else e)
  else nodes ++ [(k, v)]

structure BidirState where
  fwdN : List ((Int × Int) × BNode)
  bwdN : List ((Int × Int) × BNode)
  fwdQ : List Pos
  bwdQ : List Pos
  meeting : Option Pos

/-- `expandFrontier` for one side: shift the queue, mark visited, detect a
meeting with the other side, and enqueue unkeyed `canMove` neighbors. -/
def expandFrontier (m : Maze) (queue : List Pos)
    (own other : List ((Int × Int) × BNode)) :
    List Pos × List ((Int × Int) × BNode) × Option Pos :=
  match queue with
  | [] => ([], own, none)
  | cur :: qs =>
    match bLookup own (keyOf cur) with
    | none => (qs, own, none)
    | some nd =>
      if nd.visited then (qs, own, none)
      else
        let own1 := bSet own (keyOf cur) { nd with visited := true }
        match bLookup other (keyOf cur) with
        | some o =>
          if o.visited then (qs, own1, some cur)
          else
            let ns := (m.getNeighbors cur).filter (fun r => m.canMove cur r)
            let (q2, own2) := ns.foldl
              (fun acc nb =>
                match bLookup acc.2 (keyOf nb) with
                | some _ => acc
                | none =>
                  (acc.1 ++ [nb], bSet acc.2 (keyOf nb) ⟨some cur, false⟩))
              (qs, own1)
            (q2, own2, none)
        | none =>
          let ns := (m.getNeighbors cur).filter (fun r => m.canMove cur r)
          let (q2, own2) := ns.foldl
            (fun acc nb =>
              match bLookup acc.2 (keyOf nb) with
              | some _ => acc
              | none =>
                (acc.1 ++ [nb], bSet acc.2 (keyOf nb) ⟨some cur, false⟩))
            (qs, own1)
          (q2, own2, none)

/-- Forward half of `reconstructBidirectionalPath`: `unshift` walk of
`previous` pointers from the meeting point back to the start. -/
def fwdChain (nodes : List ((Int × Int) × BNode)) : Nat → Pos → List Pos
  | 0, p => [p]
  | n + 1, p =>
    match bLookup nodes (keyOf p) with
    | some ⟨some pr, _⟩ => fwdChain nodes n pr ++ [p]
    | _ => [p]

/-- Backward half: collect successive `previous` pointers from the meeting
point (order: toward the goal). -/
def bwdCollect (nodes : List ((Int × Int) × BNode)) : Nat → Pos → List Pos
  | 0, _ => []
  | n + 1, p =>
    match bLookup nodes (keyOf p) with
    | some ⟨some pr, _⟩ => pr :: bwdCollect nodes n pr
    | _ => []

/-- `reconstructBidirectionalPath`: forward chain, then the collected
backward walk reversed and appended. -/
def bidirPath (st : BidirState) (fuel : Nat) : List Pos :=
  match st.meeting with
  | none => []
  | some mp => fwdChain st.fwdN fuel mp ++ (bwdCollect st.bwdN fuel mp).reverse

/-- The `solve` loop: while both queues are nonempty, expand forward then
backward, stopping as soon as a meeting point is found. -/
def bidirLoop (m : Maze) : Nat → BidirState → BidirState
  | 0, st => st
  | n + 1, st =>
    if st.fwdQ.isEmpty || st.bwdQ.isEmpty then st
    else
      let (q1, f1, met1) := expandFrontier m st.fwdQ st.fwdN st.bwdN
      let st1 := { st with fwdQ := q1, fwdN := f1, meeting := met1 }
      match met1 with
      | some _ => st1
      | none =>
        let (q2, b2, met2) := expandFrontier m st1.bwdQ st1.bwdN st1.fwdN
        let st2 := { st1 with bwdQ := q2, bwdN := b2, meeting := met2 }
        match met2 with
        | some _ => st2
        | none => bidirLoop m n st2

/-- `BidirectionalSearchSolver.solve`. -/
def bidirSolve (m : Maze) (s g : Pos) (fuel : Nat) : SolRes :=
  let st0 : BidirState :=
    { fwdN := [(keyOf s, ⟨none, false⟩)], bwdN := [(keyOf g, ⟨none, false⟩)]
      fwdQ := [s], bwdQ := [g], meeting := none }
  let st := bidirLoop m fuel st0
  match st.meeting with
  | some _ => { path := bidirPath st fuel, solved := true }
  | none => { path := [], solved := false }

/-! ## Time mutator (`TimeManager`)

The stability-island selection (a `Math.random` shuffle) and the per-column
direction pattern (signs of `Math.sin`/`Math.cos` floats) do not influence
the claims about `shiftWalls`, so they are carried as abstract state: an
island list and a direction function of the (already incremented) time step,
exactly the data the class stores in `stabilityIslands` and recomputes into
`shiftPattern`.  The shift magnitude (a float `floor`) is likewise carried
as a value. -/

structure TimeManager where
  enabled : Bool
  shiftFrequency : Int
  islands : List (Int × Int)
  dirOf : Int → Int × Int → Int × Int
  mag : Int
  t : Int
  maze : Maze

/-- `TimeManager.shiftWallState`: copy the source cell's wall flags onto the
destination via `setWall`, direction by direction (reading the live source
cell each iteration, as the aliased TS object does). -/
def shiftWallState (m : Maze) (src dst : Pos) : Maze :=
  if (m.getCell src).isSome && (m.getCell dst).isSome then
    let dirs : List Dir :=
      [.north, .south, .east, .west] ++ (if m.is3d then [.up, .down] else [])
    dirs.foldl
      (fun acc d =>
        match wallGet (acc.cells src).walls d with
        | some b => acc.setWall dst d b
        | none => acc)
      m
  else m

/-- The insertion-ordered active columns of the shift pattern: every grid
`(x, y)` except the stability islands, x-major as `generateShiftPattern`
inserts them. -/
def activeCols (tm : TimeManager) : List (Int × Int) :=
  ((List.range tm.maze.width.toNat).flatMap (fun x =>
    (List.range tm.maze.height.toNat).map (fun y => ((x : Int), (y : Int))))).filter
    (fun c => !tm.islands.any (· == c))

/-- Clamp of the shifted column (`Math.max(0, Math.min(dim - 1, …))`). -/
def clampDest (tm : TimeManager) (c : Int × Int) (d : Int × Int) : Int × Int :=
  (max 0 (min (tm.maze.width - 1) (c.1 + d.1 * tm.mag)),
   max 0 (min (tm.maze.height - 1) (c.2 + d.2 * tm.mag)))

/-- The `shifts` array of `shiftWalls`: active columns whose clamped
destination differs from the source, in pattern order. -/
def shiftList (tm : TimeManager) (t1 : Int) : List ((Int × Int) × (Int × Int)) :=
  (activeCols tm).filterMap (fun c =>
    let dst := clampDest tm c (tm.dirOf t1 c)
    if dst ≠ c then some (c, dst) else none)

/-- `TimeManager.shiftWalls`: bump the tick, bail out (false) off-frequency,
otherwise regenerate the pattern at the new tick, apply every shift by
copying wall state, and report whether any column moved. -/
def shiftWalls (tm : TimeManager) : TimeManager × Bool :=
  if !tm.enabled then (tm, false)
  else
    let t1 := tm.t + 1
    if t1 % tm.shiftFrequency ≠ 0 then ({ tm with t := t1 }, false)
    else
      let shifts := shiftList tm t1
      let m1 := shifts.foldl
        (fun acc s => shiftWallState acc ⟨s.1.1, s.1.2, 0⟩ ⟨s.2.1, s.2.2, 0⟩)
        tm.maze
      ({ tm with t := t1, maze := m1 }, decide (shifts ≠ []))

/-! ## Fixtures -/

/-- A freshly generated 3×3 2-D maze: recursive backtracking with the
neighbor draws 1,0,2,0,0,0,0,0 (a legal `Math.random` outcome), followed by
`ensureOpenings`; no 5th-dimension links. -/
def mazeC3 : Maze :=
  ensureOpenings (generateMaze2D (Maze.fresh false 3 3 1) [1, 0, 2, 0, 0, 0, 0, 0] 100)

/-- A 5×1 corridor with every east-facing wall opened (as `ensureOpenings`
also opens the goal's boundary east wall). -/
def corridor5 : Maze :=
  [0, 1, 2, 3, 4].foldl (fun m x => m.setWall ⟨x, 0, 0⟩ .east false) (Maze.fresh false 5 1 1)

/-- A concrete enabled time manager used by the C8 witness. -/
def tmEx : TimeManager :=
  { enabled := true, shiftFrequency := 1, islands := []
    dirOf := fun _ _ => (1, 1), mag := 1, t := 0
    maze := Maze.fresh false 2 2 1 }

/-- Definedness of the vertical wall flags matches the dimension mode
(true of every grid reachable from `create` via `setWall`). -/
def WallsWF (m : Maze) : Prop :=
  ∀ p : Pos, (m.cells p).walls.up.isSome = m.is3d
    ∧ (m.cells p).walls.down.isSome = m.is3d

/-- The wall-symmetry invariant of the spec: for adjacent in-bounds cells,
the wall of one facing the other equals the other's opposite-facing wall. -/
def WallSym (m : Maze) : Prop :=
  ∀ (p q : Pos) (d : Dir), m.inB p = true → m.adjPos p d = some q →
    m.inB q = true →
    wallGet (m.cells p).walls d = wallGet (m.cells q).walls (opp d)

/-- A run of `setWall` calls (this is how generation, `ensureOpenings` and
`TimeManager.shiftWallState` all mutate walls). -/
def applySetWalls (m : Maze) (ops : List (Pos × Dir × Bool)) : Maze :=
  ops.foldl (fun acc o => acc.setWall o.1 o.2.1 o.2.2) m

/-! ## Claim C1 -/

/-- C1: the claim reads `canMove(a,b)` as "adjacent with no wall between, or
linked".  Evaluating the code: after opening the east wall of (0,0) in a 2×1
grid, the wall between (1,0) and (0,0) is gone (`west` of (1,0) is open),
yet `canMove((1,0),(0,0))` is `false` — `Math.abs` makes the move check
(1,0)'s east wall instead of its west wall; and for the adjacent pair
(0,0),(1,0) with a registered link and the wall intact, `canMove` is still
`false` — links are consulted only for non-adjacent pairs. -/
theorem C1_canMove_divergence_eval :
    (((Maze.fresh false 2 1 1).setWall ⟨0, 0, 0⟩ .east false).hasWall ⟨1, 0, 0⟩ .west = false
      ∧ ((Maze.fresh false 2 1 1).setWall ⟨0, 0, 0⟩ .east false).canMove ⟨1, 0, 0⟩ ⟨0, 0, 0⟩ = false)
    ∧ ((⟨1, 0, 0⟩ : Pos) ∈ (((Maze.fresh false 2 1 1).addLink ⟨0, 0, 0⟩ ⟨1, 0, 0⟩).cells ⟨0, 0, 0⟩).links
      ∧ ((Maze.fresh false 2 1 1).addLink ⟨0, 0, 0⟩ ⟨1, 0, 0⟩).canMove ⟨0, 0, 0⟩ ⟨1, 0, 0⟩ = false) := by
  decide

/-! ## Claim C3 -/

/-- C3: on the 3×3 recursive-backtracking run of `mazeC3` the carver does
open exactly width×height−1 = 8 interior walls, but the `canMove`-restricted
BFS from (0,0) reaches only 3 of the 9 cells — the directional slip in
`canMove` severs westward/northward passages of the spanning tree. -/
theorem C3_generation_bfs_divergence_eval :
    openPassages mazeC3 = 8
    ∧ bfsReach mazeC3 ⟨0, 0, 0⟩ 50 = [⟨0, 0, 0⟩, ⟨1, 0, 0⟩, ⟨1, 1, 0⟩]
    ∧ (bfsReach mazeC3 ⟨0, 0, 0⟩ 50).length = 3 := by
  decide

/-! ## Claim C4 -/

/-- C4: the spiral order of `generateLabyrinth2D` on a 2×2 layer visits
(1,0) twice and never visits (0,1): the bounds clamp after an overshooting
run duplicates the corner cell and the run-length bookkeeping skips the
inner column, contradicting "visits every cell exactly once". -/
theorem C4_labyrinth_spiral_divergence_eval :
    labyrinthPath 2 2 = [⟨0, 0, 0⟩, ⟨1, 0, 0⟩, ⟨1, 0, 0⟩, ⟨1, 1, 0⟩]
    ∧ (labyrinthPath 2 2).count ⟨1, 0, 0⟩ = 2
    ∧ (⟨0, 1, 0⟩ : Pos) ∉ labyrinthPath 2 2 := by
  decide

/-! ## Claim C5 -/

/-- C5 counterexample: the claim says `h(p,g) = |p.x−g.x| + |p.y−g.y|`
(ignoring z); at p = (0,0,0), g = (0,0,1) that value is 0 but the code's
heuristic returns 1. -/
theorem C5_heuristic_counterexample :
    heuristic ⟨0, 0, 0⟩ ⟨0, 0, 1⟩ = 1
    ∧ (((0 : Int) - 0).natAbs + ((0 : Int) - 0).natAbs : Int) = 0 := by
  decide

/-- C5 amended: the A* heuristic is the 3-D Manhattan distance — the 2-D
Manhattan distance plus `|p.z − g.z|` — and coincides with the claimed 2-D
distance exactly when the z components agree. -/
theorem C5_heuristic_amended (p g : Pos) :
    heuristic p g = (((p.x - g.x).natAbs + (p.y - g.y).natAbs : Nat) : Int) + (p.z - g.z).natAbs
    ∧ (heuristic p g = (((p.x - g.x).natAbs + (p.y - g.y).natAbs : Nat) : Int) ↔ p.z = g.z) := by
  constructor
  · simp only [heuristic]
    omega
  · simp only [heuristic]
    omega

/-! ## Claim C6 -/

/-- C6 counterexample: A* on a sealed 2×1 grid (no passage) gives up with
`solved = false`, but the returned path is `[(0,0)]`, not the empty list —
the `Solution` carries the partial visualization path. -/
theorem C6_unsolved_path_counterexample :
    (astarSolve (Maze.fresh false 2 1 1) ⟨0, 0, 0⟩ ⟨1, 0, 0⟩).solved = false
    ∧ (astarSolve (Maze.fresh false 2 1 1) ⟨0, 0, 0⟩ ⟨1, 0, 0⟩).path = [⟨0, 0, 0⟩] := by
  decide

/-! ## Claim C10 -/

/-- C10: on the fully open 5×1 corridor, `BidirectionalSearchSolver` reports
`solved = true` but returns `[(0,0),(1,0),(2,0),(4,0),(3,0)]` — the
backward half of the reconstruction is appended in reversed (wrong) order,
so the consecutive pair (2,0),(4,0) is at Manhattan distance 2, not 1, and
the path does not even end at the goal. -/
theorem C10_bidirectional_path_eval :
    (bidirSolve corridor5 ⟨0, 0, 0⟩ ⟨4, 0, 0⟩ 40).solved = true
    ∧ (bidirSolve corridor5 ⟨0, 0, 0⟩ ⟨4, 0, 0⟩ 40).path
        = [⟨0, 0, 0⟩, ⟨1, 0, 0⟩, ⟨2, 0, 0⟩, ⟨4, 0, 0⟩, ⟨3, 0, 0⟩]
    ∧ heuristic ⟨2, 0, 0⟩ ⟨4, 0, 0⟩ = 2 := by
  decide

/-! ## Supporting lemmas -/

theorem ANode.chain_ne_nil : ∀ nd : ANode, nd.chain ≠ []
  | .mk _ _ _ _ none => by simp [ANode.chain]
  | .mk _ _ _ _ (some _) => by simp [ANode.chain]

theorem astarStep_path_ne (m : Maze) (g : Pos) (st : AState)
    (h : st.currentPath ≠ []) : (astarStep m g st).currentPath ≠ [] := by
  unfold astarStep
  split
  · exact h
  · split
    · exact h
    · split
      · exact ANode.chain_ne_nil _
      · exact ANode.chain_ne_nil _

theorem astarLoop_path_ne (m : Maze) (g : Pos) :
    ∀ (n : Nat) (st : AState), st.currentPath ≠ [] →
      (astarLoop m g n st).currentPath ≠ []
  | 0, _, h => h
  | n + 1, st, h => by
    unfold astarLoop
    split
    · exact h
    · exact astarLoop_path_ne m g n _ (astarStep_path_ne m g st h)

theorem getCell_isSome (m : Maze) (p : Pos) : (m.getCell p).isSome = m.inB p := by
  unfold Maze.getCell
  split <;> simp_all

theorem getCell_fresh {b3 : Bool} {w h d : Int} {p : Pos} {c : Cell}
    (hc : (Maze.fresh b3 w h d).getCell p = some c) :
    c = freshCell b3 (if b3 then d else 1) p := by
  unfold Maze.getCell at hc
  split at hc
  · cases hc
    cases b3 <;> rfl
  · cases hc

theorem fresh2d_hasWall_lateral (w h : Int) (a : Pos) (d : Dir)
    (hd : d = .north ∨ d = .south ∨ d = .east ∨ d = .west) :
    (Maze.fresh false w h 1).hasWall a d = true := by
  unfold Maze.hasWall
  rcases hgc : (Maze.fresh false w h 1).getCell a with _ | c
  · rfl
  · rw [getCell_fresh hgc]
    rcases hd with rfl | rfl | rfl | rfl <;> rfl

/-! ## Claim C6 (amended) -/

/-- C6 amended: every outcome of `AStarSolver.solve` — success or a search
that gave up — is encoded in the returned value (the function is total) and
carries the solver's current partial path, which always contains at least
one position, rather than being empty when unsolved. -/
theorem C6_unsolved_path_amended (m : Maze) (s g : Pos) :
    0 < (astarSolve m s g).path.length := by
  have h := astarLoop_path_ne m g 10000
    { openSet := [.mk s 0 (heuristic s g) (heuristic s g) none], closed := []
      currentPath := [s], isComplete := false } (by simp)
  simpa [astarSolve, List.length_pos] using h

/-! ## Claim C7 (amended) -/

/-- C7 counterexample: even on a freshly created 2-D 1×1 grid, the
out-of-bounds probe `canMove((0,0,0),(0,0,1))` returns `true`, not `false`:
the vertical wall is `undefined` in 2-D and `?? false` turns its absence
into an open passage.  (`getCell` does return absence.) -/
theorem C7_oob_counterexample :
    (Maze.fresh false 1 1 1).inB ⟨0, 0, 1⟩ = false
    ∧ (Maze.fresh false 1 1 1).getCell ⟨0, 0, 1⟩ = none
    ∧ (Maze.fresh false 1 1 1).canMove ⟨0, 0, 0⟩ ⟨0, 0, 1⟩ = true := by
  decide

/-- C7 amended: `getCell` resolves every out-of-bounds coordinate to absence
and never raises; `canMove` consults only the probing cell's wall flags, so
a *lateral* out-of-bounds probe on a fresh 2-D grid is `false` (all lateral
walls are present) — but it does not bounds-check the destination, so
opened boundary walls or the undefined vertical flags can make it `true`. -/
theorem C7_oob_amended :
    (∀ (m : Maze) (p : Pos), m.inB p = false → m.getCell p = none)
    ∧ (∀ (w h : Int) (a b : Pos),
        (a.x - b.x).natAbs + (a.y - b.y).natAbs = 1 → a.z = b.z →
        (Maze.fresh false w h 1).canMove a b = false) := by
  constructor
  · intro m p hp
    simp [Maze.getCell, hp]
  · intro w h a b hadj hz
    unfold Maze.canMove
    split_ifs with h1 h2 h3 h4 h5
    · omega
    · simp [fresh2d_hasWall_lateral w h a .east (by tauto)]
    · exact h3.elim
    · simp [fresh2d_hasWall_lateral w h a .south (by tauto)]
    · omega
    · rfl

/-- C7 witness: the amended statement applied at concrete probes. -/
theorem C7_oob_amended_witness :
    (Maze.fresh false 1 1 1).getCell ⟨2, 0, 0⟩ = none
    ∧ (Maze.fresh false 2 1 1).canMove ⟨1, 0, 0⟩ ⟨2, 0, 0⟩ = false :=
  ⟨C7_oob_amended.1 (Maze.fresh false 1 1 1) ⟨2, 0, 0⟩ (by decide),
   C7_oob_amended.2 2 1 ⟨1, 0, 0⟩ ⟨2, 0, 0⟩ (by decide) (by decide)⟩

/-! ## Claim C8 -/

/-- C8: on an enabled time dimension, every `shiftWalls()` call bumps the
tick by exactly one; off-frequency calls return `false` and leave the grid
untouched; on-frequency calls return `true` exactly when some active
(non-island) column has a clamped destination distinct from itself, and the
grid is rewritten by copying wall state along that shift list. -/
theorem C8_shiftWalls_spec (tm : TimeManager) (hen : tm.enabled = true) :
    ((shiftWalls tm).1.t = tm.t + 1)
    ∧ ((tm.t + 1) % tm.shiftFrequency ≠ 0 →
        (shiftWalls tm).2 = false ∧ (shiftWalls tm).1.maze = tm.maze)
    ∧ ((tm.t + 1) % tm.shiftFrequency = 0 →
        ((shiftWalls tm).2 = true ↔
          ∃ c ∈ activeCols tm, clampDest tm c (tm.dirOf (tm.t + 1) c) ≠ c)
        ∧ (shiftWalls tm).1.maze
            = (shiftList tm (tm.t + 1)).foldl
                (fun acc s => shiftWallState acc ⟨s.1.1, s.1.2, 0⟩ ⟨s.2.1, s.2.2, 0⟩)
                tm.maze) := by
  have hiff : shiftList tm (tm.t + 1) ≠ [] ↔
      ∃ c ∈ activeCols tm, clampDest tm c (tm.dirOf (tm.t + 1) c) ≠ c := by
    rw [ne_eq, shiftList, List.filterMap_eq_nil_iff]
    constructor
    · intro hne
      by_contra hall
      push_neg at hall
      refine hne (fun c hc => ?_)
      simp [hall c hc]
    · rintro ⟨c, hc, hne⟩ hall
      have := hall c hc
      simp [hne] at this
  unfold shiftWalls
  rw [hen]
  by_cases hmod : (tm.t + 1) % tm.shiftFrequency = 0
  · refine ⟨?_, fun hc => absurd hmod hc, fun _ => ⟨?_, ?_⟩⟩
    · simp [hmod]
    · simp only [hmod, shiftList] at hiff ⊢
      simp [hiff]
    · simp [hmod, shiftList]
  · refine ⟨?_, fun _ => ?_, fun hc => absurd hc hmod⟩
    · simp [hmod]
    · simp [hmod]

/-- C8 witness: tick increment at a concrete enabled manager. -/
theorem C8_shiftWalls_spec_witness : (shiftWalls tmEx).1.t = tmEx.t + 1 :=
  (C8_shiftWalls_spec tmEx rfl).1

/-! ## Claim C9 -/

theorem links_any_iff {l : List Pos} {x : Pos} : (l.any (· == x)) = true ↔ x ∈ l := by
  simp [List.any_eq_true]

theorem updCell_cells (m : Maze) (p : Pos) (f : Cell → Cell) (q : Pos) :
    (m.updCell p f).cells q = if q = p then f (m.cells q) else m.cells q := rfl

theorem addLink_inB (m : Maze) (a b p : Pos) : (m.addLink a b).inB p = m.inB p := by
  simp only [Maze.addLink]
  split_ifs <;> rfl

theorem addLink_mem (m : Maze) (a b : Pos)
    (hg : ((m.getCell a).isSome && (m.getCell b).isSome) = true) :
    b ∈ ((m.addLink a b).cells a).links ∧ a ∈ ((m.addLink a b).cells b).links := by
  simp only [Maze.addLink]
  rw [if_pos hg]
  by_cases h1 : ((m.cells a).links.any (· == b)) = true
  · rw [if_pos h1]
    by_cases h2 : ((m.cells b).links.any (· == a)) = true
    · rw [if_pos h2]
      exact ⟨links_any_iff.mp h1, links_any_iff.mp h2⟩
    · rw [if_neg h2]
      constructor
      · rw [updCell_cells]
        by_cases hab : a = b
        · rw [if_pos hab]
          simp [links_any_iff.mp h1]
        · rw [if_neg hab]
          exact links_any_iff.mp h1
      · rw [updCell_cells, if_pos rfl]
        simp
  · rw [if_neg h1]
    by_cases h2 : (((m.updCell a fun c => { c with links := c.links ++ [b] }).cells b).links.any
        (· == a)) = true
    · rw [if_pos h2]
      refine ⟨?_, links_any_iff.mp h2⟩
      rw [updCell_cells, if_pos rfl]
      simp
    · rw [if_neg h2]
      constructor
      · rw [updCell_cells]
        by_cases hab : a = b
        · rw [if_pos hab]
          simp [updCell_cells]
        · rw [if_neg hab]
          rw [updCell_cells, if_pos rfl]
          simp
      · rw [updCell_cells, if_pos rfl]
        simp

theorem addLink_eq_self (m : Maze) (a b : Pos)
    (hg : ((m.getCell a).isSome && (m.getCell b).isSome) = true)
    (hab : b ∈ (m.cells a).links) (hba : a ∈ (m.cells b).links) :
    m.addLink a b = m := by
  simp only [Maze.addLink]
  rw [if_pos hg, if_pos (links_any_iff.mpr hab), if_pos (links_any_iff.mpr hba)]

/-- C9: `addLink(a,b)` on resolving endpoints makes the link sets mutually
contain the endpoints, repeating the call changes nothing, and a call naming
any nonexistent cell leaves the whole grid untouched (and, being total,
never raises). -/
theorem C9_addLink_spec (m : Maze) (a b : Pos) :
    (m.inB a = true → m.inB b = true →
      b ∈ ((m.addLink a b).cells a).links
      ∧ a ∈ ((m.addLink a b).cells b).links
      ∧ (m.addLink a b).addLink a b = m.addLink a b)
    ∧ (¬(m.inB a = true ∧ m.inB b = true) → m.addLink a b = m) := by
  constructor
  · intro ha hb
    have hg : ((m.getCell a).isSome && (m.getCell b).isSome) = true := by
      simp [getCell_isSome, ha, hb]
    have hg' : (((m.addLink a b).getCell a).isSome
        && ((m.addLink a b).getCell b).isSome) = true := by
      simp [getCell_isSome, addLink_inB, ha, hb]
    obtain ⟨h1, h2⟩ := addLink_mem m a b hg
    exact ⟨h1, h2, addLink_eq_self _ a b hg' h1 h2⟩
  · intro h
    have hg : ((m.getCell a).isSome && (m.getCell b).isSome) = false := by
      rw [Bool.and_eq_false_iff]
      by_cases ha : m.inB a = true
      · right
        rw [getCell_isSome]
        rcases Bool.eq_false_or_eq_true (m.inB b) with hb | hb
        · exact absurd ⟨ha, hb⟩ h
        · exact hb
      · left
        rw [getCell_isSome]
        exact Bool.eq_false_iff.mpr ha
    simp only [Maze.addLink]
    rw [if_neg (by simp [hg])]

/-- C9 witness: the theorem applied on a 2×1 grid — insertion at in-bounds
endpoints, and a silent no-op for an out-of-bounds endpoint. -/
theorem C9_addLink_spec_witness :
    ((⟨1, 0, 0⟩ : Pos) ∈ (((Maze.fresh false 2 1 1).addLink ⟨0, 0, 0⟩ ⟨1, 0, 0⟩).cells ⟨0, 0, 0⟩).links
      ∧ (⟨0, 0, 0⟩ : Pos) ∈ (((Maze.fresh false 2 1 1).addLink ⟨0, 0, 0⟩ ⟨1, 0, 0⟩).cells ⟨1, 0, 0⟩).links
      ∧ ((Maze.fresh false 2 1 1).addLink ⟨0, 0, 0⟩ ⟨1, 0, 0⟩).addLink ⟨0, 0, 0⟩ ⟨1, 0, 0⟩
          = (Maze.fresh false 2 1 1).addLink ⟨0, 0, 0⟩ ⟨1, 0, 0⟩)
    ∧ (Maze.fresh false 2 1 1).addLink ⟨0, 0, 0⟩ ⟨9, 0, 0⟩ = Maze.fresh false 2 1 1 :=
  ⟨(C9_addLink_spec (Maze.fresh false 2 1 1) ⟨0, 0, 0⟩ ⟨1, 0, 0⟩).1 (by decide) (by decide),
   (C9_addLink_spec (Maze.fresh false 2 1 1) ⟨0, 0, 0⟩ ⟨9, 0, 0⟩).2 (by decide)⟩

/-! ## Claim C2: wall symmetry -/

theorem opp_opp (d : Dir) : opp (opp d) = d := by
  cases d <;> rfl

theorem opp_inj {d d' : Dir} (h : opp d = opp d') : d = d' := by
  cases d <;> cases d' <;> simp_all [opp]

theorem wallGet_wallSet (w : Walls) (b : Bool) (d d' : Dir) :
    wallGet (wallSet w b d) d' = if d' = d then some b else wallGet w d' := by
  cases d <;> cases d' <;> simp [wallGet, wallSet]

theorem wallGet_lateral_isSome (w : Walls) (d : Dir)
    (hd : d = .north ∨ d = .south ∨ d = .east ∨ d = .west) :
    (wallGet w d).isSome = true := by
  rcases hd with rfl | rfl | rfl | rfl <;> rfl

theorem wallSet_up_isSome (w : Walls) (b : Bool) (d : Dir)
    (hg : (wallGet w d).isSome = true) :
    (wallSet w b d).up.isSome = w.up.isSome := by
  cases d <;> simp_all [wallSet, wallGet]

theorem wallSet_down_isSome (w : Walls) (b : Bool) (d : Dir)
    (hg : (wallGet w d).isSome = true) :
    (wallSet w b d).down.isSome = w.down.isSome := by
  cases d <;> simp_all [wallSet, wallGet]

theorem adjPos_symm {m : Maze} {p q : Pos} {d : Dir}
    (h : m.adjPos p d = some q) : m.adjPos q (opp d) = some p := by
  cases d <;> simp only [Maze.adjPos, opp] at h ⊢
  case north =>
    injection h with h
    subst h
    rw [Int.sub_add_cancel]
  case south =>
    injection h with h
    subst h
    rw [Int.add_sub_cancel]
  case east =>
    injection h with h
    subst h
    rw [Int.add_sub_cancel]
  case west =>
    injection h with h
    subst h
    rw [Int.sub_add_cancel]
  case up =>
    split at h
    · injection h with h
      subst h
      rename_i h3
      rw [if_pos h3, Int.add_sub_cancel]
    · cases h
  case down =>
    split at h
    · injection h with h
      subst h
      rename_i h3
      rw [if_pos h3, Int.sub_add_cancel]
    · cases h

theorem adjPos_ne {m : Maze} {p q : Pos} {d : Dir}
    (h : m.adjPos p d = some q) : p ≠ q := by
  cases d <;> simp only [Maze.adjPos] at h
  case north =>
    injection h with h
    have hy : p.y - 1 = q.y := congrArg Pos.y h
    intro hpq
    subst hpq
    omega
  case south =>
    injection h with h
    have hy : p.y + 1 = q.y := congrArg Pos.y h
    intro hpq
    subst hpq
    omega
  case east =>
    injection h with h
    have hx : p.x + 1 = q.x := congrArg Pos.x h
    intro hpq
    subst hpq
    omega
  case west =>
    injection h with h
    have hx : p.x - 1 = q.x := congrArg Pos.x h
    intro hpq
    subst hpq
    omega
  case up =>
    split at h
    · injection h with h
      have hz : p.z + 1 = q.z := congrArg Pos.z h
      intro hpq
      subst hpq
      omega
    · cases h
  case down =>
    split at h
    · injection h with h
      have hz : p.z - 1 = q.z := congrArg Pos.z h
      intro hpq
      subst hpq
      omega
    · cases h

theorem adjPos_fun {m : Maze} {p q q' : Pos} {d : Dir}
    (h : m.adjPos p d = some q) (h' : m.adjPos p d = some q') : q = q' := by
  rw [h] at h'
  exact Option.some.inj h'

theorem fresh_WF (b3 : Bool) (w h d : Int) : WallsWF (Maze.fresh b3 w h d) := by
  intro p
  cases b3 <;> simp [Maze.fresh, freshCell]

theorem fresh_sym (b3 : Bool) (w h d : Int) : WallSym (Maze.fresh b3 w h d) := by
  intro p q dir hp hadj hq
  simp only [Maze.fresh, Maze.inB] at hp hq
  simp only [Bool.and_eq_true, decide_eq_true_eq] at hp hq
  cases dir <;> simp only [Maze.fresh, Maze.adjPos] at hadj ⊢
  case north => rfl
  case south => rfl
  case east => rfl
  case west => rfl
  case up =>
    split at hadj
    · injection hadj with hadj
      subst hadj
      rename_i h3
      simp only [freshCell, wallGet, opp, h3, if_true]
      have h3' : b3 = true := h3
      simp only [h3', if_true] at hp hq ⊢
      have hA : p.z < d - 1 := by omega
      have hB : p.z + 1 > 0 := by omega
      simp [hA, hB]
    · cases hadj
  case down =>
    split at hadj
    · injection hadj with hadj
      subst hadj
      rename_i h3
      simp only [freshCell, wallGet, opp, h3, if_true]
      have h3' : b3 = true := h3
      simp only [h3', if_true] at hp hq ⊢
      have hA : p.z > 0 := by omega
      have hB : p.z - 1 < d - 1 := by omega
      simp [hA, hB]
    · cases hadj

theorem getCell_of_inB {m : Maze} {p : Pos} (hp : m.inB p = true) :
    m.getCell p = some (m.cells p) := by
  simp [Maze.getCell, hp]

theorem getCell_of_oob {m : Maze} {p : Pos} (hp : m.inB p = false) :
    m.getCell p = none := by
  simp [Maze.getCell, hp]

theorem setWall_of_oob {m : Maze} {p : Pos} {d : Dir} {b : Bool}
    (hp : m.inB p = false) : m.setWall p d b = m := by
  unfold Maze.setWall
  rw [getCell_of_oob hp]

theorem setWall_of_guard_none {m : Maze} {p : Pos} {d : Dir} {b : Bool}
    (hp : m.inB p = true)
    (hg : (wallGet (m.cells p).walls d).isSome = false) : m.setWall p d b = m := by
  unfold Maze.setWall
  rw [getCell_of_inB hp]
  simp only
  rw [if_neg (by simp [hg])]

theorem setWall_of_adjNone {m : Maze} {p : Pos} {d : Dir} {b : Bool}
    (hp : m.inB p = true)
    (hg : (wallGet (m.cells p).walls d).isSome = true)
    (hadj : m.adjPos p d = none) :
    m.setWall p d b
      = m.updCell p (fun c0 => { c0 with walls := wallSet c0.walls b d }) := by
  unfold Maze.setWall
  rw [getCell_of_inB hp]
  simp only
  rw [if_pos hg, hadj]

theorem setWall_of_adjOob {m : Maze} {p q : Pos} {d : Dir} {b : Bool}
    (hp : m.inB p = true)
    (hg : (wallGet (m.cells p).walls d).isSome = true)
    (hadj : m.adjPos p d = some q) (hq : m.inB q = false) :
    m.setWall p d b
      = m.updCell p (fun c0 => { c0 with walls := wallSet c0.walls b d }) := by
  unfold Maze.setWall
  rw [getCell_of_inB hp]
  simp only
  rw [if_pos hg, hadj]
  simp only
  have h1 : (m.updCell p (fun c0 => { c0 with walls := wallSet c0.walls b d })).getCell q
      = none :=
    getCell_of_oob
      (show (m.updCell p (fun c0 => { c0 with walls := wallSet c0.walls b d })).inB q = false
        from hq)
  rw [h1]

theorem setWall_of_adjIn {m : Maze} {p q : Pos} {d : Dir} {b : Bool}
    (hp : m.inB p = true)
    (hg : (wallGet (m.cells p).walls d).isSome = true)
    (hadj : m.adjPos p d = some q) (hq : m.inB q = true)
    (hg2 : (wallGet (m.cells q).walls (opp d)).isSome = true) :
    m.setWall p d b
      = (m.updCell p (fun c0 => { c0 with walls := wallSet c0.walls b d })).updCell q
          (fun c0 => { c0 with walls := wallSet c0.walls b (opp d) }) := by
  have hqp : q ≠ p := (adjPos_ne hadj).symm
  unfold Maze.setWall
  rw [getCell_of_inB hp]
  simp only
  rw [if_pos hg, hadj]
  simp only
  have h1 : (m.updCell p (fun c0 => { c0 with walls := wallSet c0.walls b d })).getCell q
      = some ((m.updCell p (fun c0 => { c0 with walls := wallSet c0.walls b d })).cells q) :=
    getCell_of_inB
      (show (m.updCell p (fun c0 => { c0 with walls := wallSet c0.walls b d })).inB q = true
        from hq)
  rw [h1]
  simp only
  rw [updCell_cells, if_neg hqp, if_pos hg2]

theorem updCell_walls_WF {m : Maze} (hwf : WallsWF m) (p : Pos) (b : Bool) (d : Dir)
    (hg : (wallGet (m.cells p).walls d).isSome = true) :
    WallsWF (m.updCell p (fun c0 => { c0 with walls := wallSet c0.walls b d })) := by
  intro r
  constructor
  · show (Maze.cells _ r).walls.up.isSome = m.is3d
    rw [updCell_cells]
    by_cases hrp : r = p
    · subst hrp
      rw [if_pos rfl]
      have h1 := wallSet_up_isSome (m.cells r).walls b d hg
      exact h1.trans (hwf r).1
    · rw [if_neg hrp]
      exact (hwf r).1
  · show (Maze.cells _ r).walls.down.isSome = m.is3d
    rw [updCell_cells]
    by_cases hrp : r = p
    · subst hrp
      rw [if_pos rfl]
      have h1 := wallSet_down_isSome (m.cells r).walls b d hg
      exact h1.trans (hwf r).2
    · rw [if_neg hrp]
      exact (hwf r).2

/-- The mirrored wall flag is defined whenever the primary one is (all
lateral flags are defined; vertical ones are defined exactly in 3-D). -/
theorem mirror_guard {m : Maze} (hwf : WallsWF m) {p : Pos} (q : Pos) {d : Dir}
    (hg : (wallGet (m.cells p).walls d).isSome = true) :
    (wallGet (m.cells q).walls (opp d)).isSome = true := by
  cases d
  case north => rfl
  case south => rfl
  case east => rfl
  case west => rfl
  case up =>
    have h3 : m.is3d = true := ((hwf p).1).symm.trans hg
    exact ((hwf q).2).trans h3
  case down =>
    have h3 : m.is3d = true := ((hwf p).2).symm.trans hg
    exact ((hwf q).1).trans h3

theorem updCell_sym_single {m : Maze} (hsym : WallSym m) {p0 : Pos} {d0 : Dir} {b : Bool}
    (hmiss : ∀ r : Pos, m.adjPos p0 d0 = some r → m.inB r = false) :
    WallSym (m.updCell p0 (fun c0 => { c0 with walls := wallSet c0.walls b d0 })) := by
  intro p q d hp hadj hq
  have hp' : m.inB p = true := hp
  have hadj' : m.adjPos p d = some q := hadj
  have hq' : m.inB q = true := hq
  show wallGet (Maze.cells _ p).walls d = wallGet (Maze.cells _ q).walls (opp d)
  simp only [updCell_cells]
  by_cases hpp : p = p0
  · subst hpp
    rw [if_pos rfl]
    have hqp : q ≠ p := Ne.symm (adjPos_ne hadj')
    rw [if_neg hqp]
    show wallGet (wallSet (m.cells p).walls b d0) d = _
    rw [wallGet_wallSet]
    by_cases hdd : d = d0
    · subst hdd
      have := hmiss q hadj'
      rw [hq'] at this
      cases this
    · rw [if_neg hdd]
      exact hsym p q d hp' hadj' hq'
  · rw [if_neg hpp]
    by_cases hqq : q = p0
    · subst hqq
      rw [if_pos rfl]
      show _ = wallGet (wallSet (m.cells q).walls b d0) (opp d)
      rw [wallGet_wallSet]
      by_cases hod : opp d = d0
      · have h1 : m.adjPos q (opp d) = some p := adjPos_symm hadj'
        rw [hod] at h1
        have := hmiss p h1
        rw [hp'] at this
        cases this
      · rw [if_neg hod]
        exact hsym p q d hp' hadj' hq'
    · rw [if_neg hqq]
      exact hsym p q d hp' hadj' hq'

theorem updCell_read (m : Maze) (p0 : Pos) (g1 : Cell → Cell) (r : Pos) :
    ((m.updCell p0 g1).cells r) = if r = p0 then g1 (m.cells p0) else m.cells r := by
  show (if r = p0 then g1 (m.cells r) else m.cells r) = _
  by_cases h : r = p0
  · subst h
    rfl
  · rw [if_neg h, if_neg h]

theorem updCell_read2 {m : Maze} {p0 q0 : Pos} (hne : p0 ≠ q0)
    (g1 g2 : Cell → Cell) (r : Pos) :
    (((m.updCell p0 g1).updCell q0 g2).cells r)
      = if r = q0 then g2 (m.cells q0)
        else if r = p0 then g1 (m.cells p0) else m.cells r := by
  simp only [updCell_read]
  rw [if_neg (Ne.symm hne)]

theorem updCell_sym_double {m : Maze} (hsym : WallSym m) {p0 q0 : Pos} {d0 : Dir}
    {b : Bool} (hadj0 : m.adjPos p0 d0 = some q0) :
    WallSym ((m.updCell p0 (fun c0 => { c0 with walls := wallSet c0.walls b d0 })).updCell
      q0 (fun c0 => { c0 with walls := wallSet c0.walls b (opp d0) })) := by
  have hne : p0 ≠ q0 := adjPos_ne hadj0
  have hadj0s : m.adjPos q0 (opp d0) = some p0 := adjPos_symm hadj0
  intro p q d hp hadj hq
  have hp' : m.inB p = true := hp
  have hadj' : m.adjPos p d = some q := hadj
  have hq' : m.inB q = true := hq
  have hpq : p ≠ q := adjPos_ne hadj'
  show wallGet (Maze.cells _ p).walls d = wallGet (Maze.cells _ q).walls (opp d)
  rw [updCell_read2 hne, updCell_read2 hne]
  by_cases hpq0 : p = q0
  · rw [if_pos hpq0]
    show wallGet (wallSet (m.cells q0).walls b (opp d0)) d = _
    rw [wallGet_wallSet]
    by_cases hdo : d = opp d0
    · rw [if_pos hdo]
      have hq_eq : q = p0 := by
        refine adjPos_fun ?_ hadj0s
        rw [← hpq0, ← hdo]
        exact hadj'
      rw [if_neg (show ¬q = q0 by rw [hq_eq]; exact hne), if_pos hq_eq]
      show _ = wallGet (wallSet (m.cells p0).walls b d0) (opp d)
      rw [wallGet_wallSet, if_pos (by rw [hdo, opp_opp])]
    · rw [if_neg hdo]
      rw [if_neg (show ¬q = q0 from fun hcon => hpq (hpq0.trans hcon.symm))]
      have hend := hsym p q d hp' hadj' hq'
      rw [hpq0] at hend
      by_cases hqp0 : q = p0
      · rw [if_pos hqp0]
        show _ = wallGet (wallSet (m.cells p0).walls b d0) (opp d)
        rw [wallGet_wallSet]
        rw [if_neg (show ¬opp d = d0 from fun hcon =>
          hdo (by rw [← opp_opp d, hcon]))]
        rw [hqp0] at hend
        exact hend
      · rw [if_neg hqp0]
        exact hend
  · rw [if_neg hpq0]
    by_cases hpp0 : p = p0
    · rw [if_pos hpp0]
      show wallGet (wallSet (m.cells p0).walls b d0) d = _
      rw [wallGet_wallSet]
      by_cases hdd : d = d0
      · rw [if_pos hdd]
        have hq_eq : q = q0 := by
          refine adjPos_fun ?_ hadj0
          rw [← hpp0, ← hdd]
          exact hadj'
        rw [if_pos hq_eq]
        show _ = wallGet (wallSet (m.cells q0).walls b (opp d0)) (opp d)
        rw [wallGet_wallSet, if_pos (by rw [hdd])]
      · rw [if_neg hdd]
        have hend := hsym p q d hp' hadj' hq'
        rw [hpp0] at hend
        by_cases hqq0 : q = q0
        · rw [if_pos hqq0]
          show _ = wallGet (wallSet (m.cells q0).walls b (opp d0)) (opp d)
          rw [wallGet_wallSet]
          rw [if_neg (show ¬opp d = opp d0 from fun hcon => hdd (opp_inj hcon))]
          rw [hqq0] at hend
          exact hend
        · rw [if_neg hqq0]
          by_cases hqp0 : q = p0
          · exact absurd (hpp0.trans hqp0.symm) hpq
          · rw [if_neg hqp0]
            exact hend
    · rw [if_neg hpp0]
      have hend := hsym p q d hp' hadj' hq'
      by_cases hqq0 : q = q0
      · rw [if_pos hqq0]
        show _ = wallGet (wallSet (m.cells q0).walls b (opp d0)) (opp d)
        rw [wallGet_wallSet]
        have hod : ¬opp d = opp d0 := by
          intro hcon
          have hdd0 : d = d0 := opp_inj hcon
          have h1 : m.adjPos q0 (opp d0) = some p := by
            refine adjPos_symm ?_
            rw [← hqq0, ← hdd0]
            exact hadj'
          exact hpp0 (adjPos_fun h1 hadj0s)
        rw [if_neg hod]
        rw [hqq0] at hend
        exact hend
      · rw [if_neg hqq0]
        by_cases hqp0 : q = p0
        · rw [if_pos hqp0]
          show _ = wallGet (wallSet (m.cells p0).walls b d0) (opp d)
          rw [wallGet_wallSet]
          have hod : ¬opp d = d0 := by
            intro hcon
            have h1 : m.adjPos p0 d0 = some p := by
              rw [← hqp0, ← hcon]
              exact adjPos_symm hadj'
            exact hpq0 (adjPos_fun h1 hadj0)
          rw [if_neg hod]
          rw [hqp0] at hend
          exact hend
        · rw [if_neg hqp0]
          exact hend

theorem setWall_pres (m : Maze) (p : Pos) (d : Dir) (b : Bool)
    (hwf : WallsWF m) (hsym : WallSym m) :
    WallsWF (m.setWall p d b) ∧ WallSym (m.setWall p d b) := by
  rcases Bool.eq_false_or_eq_true (m.inB p) with hp | hp
  case inr =>
    rw [setWall_of_oob hp]
    exact ⟨hwf, hsym⟩
  rcases Bool.eq_false_or_eq_true ((wallGet (m.cells p).walls d).isSome) with hg | hg
  case inr =>
    rw [setWall_of_guard_none hp hg]
    exact ⟨hwf, hsym⟩
  rcases hadj : m.adjPos p d with _ | q
  · rw [setWall_of_adjNone hp hg hadj]
    refine ⟨updCell_walls_WF hwf p b d hg, updCell_sym_single hsym ?_⟩
    intro r hr
    rw [hadj] at hr
    cases hr
  · rcases Bool.eq_false_or_eq_true (m.inB q) with hq | hq
    case inr =>
      rw [setWall_of_adjOob hp hg hadj hq]
      refine ⟨updCell_walls_WF hwf p b d hg, updCell_sym_single hsym ?_⟩
      intro r hr
      rw [hadj] at hr
      injection hr with hr
      rw [← hr]
      exact hq
    have hg2 : (wallGet (m.cells q).walls (opp d)).isSome = true :=
      mirror_guard hwf q hg
    rw [setWall_of_adjIn hp hg hadj hq hg2]
    constructor
    · have hwf1 := updCell_walls_WF hwf p b d hg
      have hqp : q ≠ p := (adjPos_ne hadj).symm
      have hg2' : (wallGet
          (((m.updCell p (fun c0 => { c0 with walls := wallSet c0.walls b d })).cells
            q)).walls (opp d)).isSome = true := by
        rw [updCell_read, if_neg hqp]
        exact hg2
      exact updCell_walls_WF hwf1 q b (opp d) hg2'
    · exact updCell_sym_double hsym hadj

theorem applySetWalls_pres : ∀ (ops : List (Pos × Dir × Bool)) (m : Maze),
    WallsWF m → WallSym m →
    WallsWF (applySetWalls m ops) ∧ WallSym (applySetWalls m ops)
  | [], _, hwf, hsym => ⟨hwf, hsym⟩
  | o :: os, m, hwf, hsym => by
    have h := setWall_pres m o.1 o.2.1 o.2.2 hwf hsym
    exact applySetWalls_pres os _ h.1 h.2

/-- C2: wall symmetry is an invariant — on any freshly created grid (2-D or
3-D, any sizes) and after any sequence of `setWall` calls (the only wall
mutation used by generation and by `TimeManager.shiftWallState`), every pair
of adjacent in-bounds cells agrees: the wall of one facing the other equals
the other's opposite-facing wall. -/
theorem C2_wall_symmetry (b3 : Bool) (w h d : Int)
    (ops : List (Pos × Dir × Bool)) :
    WallSym (applySetWalls (Maze.fresh b3 w h d) ops) :=
  (applySetWalls_pres ops _ (fresh_WF b3 w h d) (fresh_sym b3 w h d)).2

/-- C2 witness: the invariant at a concrete grid and mutation. -/
theorem C2_wall_symmetry_witness :
    WallSym (applySetWalls (Maze.fresh false 2 2 1) [(⟨0, 0, 0⟩, .east, false)]) :=
  C2_wall_symmetry false 2 2 1 [(⟨0, 0, 0⟩, .east, false)]

end MazeSim
